import Mathlib

/-!
# TellStore: log entries, transaction holders, row-store page garbage collection, scan queries

A shallow embedding of `util/Log.hpp`, `util/TransactionImpl.hpp`,
`deltamain/rowstore/RowStorePage.cpp` and of the query written by `Client::doScan` in
`client/Client.cpp`.

Conventions of the embedding
* addresses (`char*`) are natural numbers, a nullable pointer is an `Option`;
* `uint32_t` arithmetic that can wrap is written with an explicit `% 2 ^ 32`;
* atomics are read and written as in a run without interference from other threads;
* loops take a fuel argument and answer `none` when the fuel is used up; `none` is
  also the answer when a null pointer would be dereferenced;
* offsets inside a page (`uint64_t`) are natural numbers; the capacity
  `TELL_PAGE_SIZE - mFillOffset` is the truncated difference, which is the C++ value as
  long as the fill offset does not exceed the page size.
-/

namespace TellStore

/-! ## util/Log.hpp -/

/-- Number of values of a `uint32_t`. -/
def UINT32_MOD : Nat := 2 ^ 32

/-- The header of a log entry: `std::atomic<uint32_t> mOffset; uint32_t size;`. -/
structure LogEntry where
  mOffset : Nat
  size : Nat
deriving DecidableEq

namespace LogEntry

/-- Constructor `LogEntry(uint32_t offset, uint32_t size) : mOffset(offset + 1), size(size)`. -/
def new (offset size : Nat) : LogEntry :=
  { mOffset := (offset + 1) % UINT32_MOD, size := size }

/-- Method `sealed()`: `return mOffset.load() % 2 == 0;`. -/
def sealed (e : LogEntry) : Bool :=
  e.mOffset % 2 == 0

/-- Method `offset()`: `auto offset = mOffset.load(); return offset - (offset % 2);`. -/
def offset (e : LogEntry) : Nat :=
  e.mOffset - (e.mOffset % 2)

/-- The call `mOffset.compare_exchange_strong(expected, desired)` without interference:
the entry after the call, the value left in `expected`, and the success flag. -/
def compare_exchange_strong (e : LogEntry) (expected desired : Nat) : LogEntry × Nat × Bool :=
  if e.mOffset = expected then ({ e with mOffset := desired }, expected, true)
  else (e, e.mOffset, false)

/-- The loop of `seal()`:
`while (offset % 2 != 0) { mOffset.compare_exchange_strong(offset, offset - 1); offset = mOffset.load(); }`.
The local `offset` is odd inside the body, so `offset - 1` does not wrap. -/
def sealLoop : Nat → LogEntry → Nat → Option LogEntry
  | 0, _, _ => none
  | fuel + 1, e, offset =>
    if offset % 2 != 0 then
      let r := e.compare_exchange_strong offset (offset - 1)
      sealLoop fuel r.1 r.1.mOffset
    else some e

end LogEntry

/-- Method `seal()`: `auto offset = mOffset.load();` followed by the loop. -/
def LogEntry.seal (fuel : Nat) (e : LogEntry) : Option LogEntry :=
  LogEntry.sealLoop fuel e e.mOffset

/-- Size of a pointer, `sizeof(LogPage*)`, on the 64-bit targets of the store
(the layout comment of `LogPage` gives `next` 8 bytes). -/
def SIZEOF_POINTER : Nat := 8

/-- A `LogPage` only holds the address of its page: `char* page;`. -/
structure LogPage where
  page : Nat
deriving DecidableEq

namespace LogPage

/-- Constant `static constexpr size_t LOG_HEADER_SIZE = 16;`. -/
def LOG_HEADER_SIZE : Nat := 16

/-- Constant `constexpr static size_t DATA_OFFSET = 16;`. -/
def DATA_OFFSET : Nat := 16

/-- Address referenced by `next()`: `*reinterpret_cast<std::atomic<LogPage*>*>(page)`. -/
def next (p : LogPage) : Nat := p.page

/-- Address referenced by `offset()`:
`*reinterpret_cast<std::atomic<uint32_t>*>(page + sizeof(LogPage*))`. -/
def offset (p : LogPage) : Nat := p.page + SIZEOF_POINTER

/-- Address returned by `begin()`: `return reinterpret_cast<LogEntry*>(page);`. -/
def begin (p : LogPage) : Nat := p.page

end LogPage

/-! ## util/TransactionImpl.hpp -/

/-- The two notifications a holder sends to its storage: `mStorage->commit(*mDescriptor)`
and `mStorage->abort(*mDescriptor)`. They are also the two explicit calls a user makes on
the holder, `commit()` and `abort()`. -/
inductive TxCall where
  | commit
  | abort
deriving DecidableEq

/-- One notification received by a storage: which storage (`mStorage`), which
call, and the descriptor it was given. -/
structure Notification (D : Type) where
  storage : Nat
  call : TxCall
  descriptor : D
deriving DecidableEq

/-- The members of `TransactionImpl<StorageImpl>`: `StorageImpl* mStorage`,
`std::unique_ptr<SnapshotDescriptor> mDescriptor` (empty is `none`) and
`bool mCommitted = false`. -/
structure TransactionImpl (D : Type) where
  mStorage : Nat
  mDescriptor : Option D
  mCommitted : Bool
deriving DecidableEq

namespace TransactionImpl

variable {D : Type}

/-- Constructor `TransactionImpl(StorageImpl& storage, std::unique_ptr<SnapshotDescriptor> snapshot)`. -/
def new (storage : Nat) (snapshot : D) : TransactionImpl D :=
  { mStorage := storage, mDescriptor := some snapshot, mCommitted := false }

/-- The statement `mStorage->c(*mDescriptor)`: appends the notification to the trace of
storage calls; dereferencing an empty `mDescriptor` has no result. -/
def notify (t : TransactionImpl D) (c : TxCall) (trace : List (Notification D)) :
    Option (List (Notification D)) :=
  match t.mDescriptor with
  | none => none
  | some d => some (trace ++ [{ storage := t.mStorage, call := c, descriptor := d }])

/-- Method `commit()`:
`if (mCommitted) return; mStorage->commit(*mDescriptor); mCommitted = true;`. -/
def commit (t : TransactionImpl D) (trace : List (Notification D)) :
    Option (TransactionImpl D × List (Notification D)) :=
  if t.mCommitted then some (t, trace)
  else (t.notify TxCall.commit trace).map fun tr => ({ t with mCommitted := true }, tr)

/-- Method `abort()`:
`if (mCommitted) return; mStorage->abort(*mDescriptor); mCommitted = true;`. -/
def abort (t : TransactionImpl D) (trace : List (Notification D)) :
    Option (TransactionImpl D × List (Notification D)) :=
  if t.mCommitted then some (t, trace)
  else (t.notify TxCall.abort trace).map fun tr => ({ t with mCommitted := true }, tr)

/-- Destructor `~TransactionImpl()`: `if (!mCommitted) mStorage->commit(*mDescriptor);`.
The holder is gone afterwards, only the trace remains. -/
def destroy (t : TransactionImpl D) (trace : List (Notification D)) :
    Option (List (Notification D)) :=
  if !t.mCommitted then t.notify TxCall.commit trace else some trace

/-- One explicit call of the user on the holder. -/
def call (c : TxCall) (t : TransactionImpl D) (trace : List (Notification D)) :
    Option (TransactionImpl D × List (Notification D)) :=
  match c with
  | TxCall.commit => t.commit trace
  | TxCall.abort => t.abort trace

/-- A sequence of explicit calls, in order. -/
def calls : List TxCall → TransactionImpl D → List (Notification D) →
    Option (TransactionImpl D × List (Notification D))
  | [], t, trace => some (t, trace)
  | c :: rest, t, trace =>
    match call c t trace with
    | none => none
    | some r => calls rest r.1 r.2

/-- The life of a holder: construction from a storage and a snapshot, a sequence of
explicit calls, destruction. The result is the trace of storage notifications. -/
def lifetime (storage : Nat) (snapshot : D) (cs : List TxCall) : Option (List (Notification D)) :=
  match calls cs (new storage snapshot) [] with
  | none => none
  | some r => destroy r.1 r.2

/-- Method `descriptor()` and the conversion `operator const SnapshotDescriptor&()`, both
`return *mDescriptor;`: the descriptor, and no result when the empty `mDescriptor` is
dereferenced. -/
def descriptor (t : TransactionImpl D) : Option D :=
  match t.mDescriptor with
  | none => none
  | some d => some d

end TransactionImpl

/-! ## deltamain/rowstore/RowStorePage.cpp -/

/-- Modelled from the spec: the insert map (`deltamain/InsertMap.hpp` is not part of the
sources): "for each key present only in the log, the sequence of its log-entry pointers".
The entries are listed in iteration order, so `begin()` is the head of the list. -/
abbrev InsertMap := List (Nat × List Nat)

/-- Modelled from the spec: `insertMap.erase(it)` for an iterator that points at the entry
of key `key`: that entry is removed, the others stay in order. -/
def InsertMap.erase : InsertMap → Nat → InsertMap
  | [], _ => []
  | e :: rest, key => if e.1 = key then rest else e :: InsertMap.erase rest key

/-- Modelled from the spec: the hash-table `Modifier` (`util/CuckooHash.hpp` is not part of
the sources), "a batched writer view of the hash table": the list of `(key, location)`
bindings it holds, at most the first binding of a key counts. -/
abbrev Modifier := List (Nat × Nat)

/-- Modelled from the spec: `hashTable.get(key)`, the location bound to the key, if any. -/
def Modifier.get (h : Modifier) (key : Nat) : Option Nat :=
  (h.find? fun b => b.1 == key).map Prod.snd

/-- Modelled from the spec: `hashTable.insert(key, ptr, replace)`: binds the key when it is
unbound, and rebinds a bound key only when `replace` is set ("upsert"). -/
def Modifier.insert (h : Modifier) (key ptr : Nat) (replace : Bool) : Modifier :=
  if replace || (Modifier.get h key).isNone then (key, ptr) :: h else h

/-- The operations of `deltamain/Record.hpp` used by the row-store page, and the constants
and collaborators declared outside the sources, taken as parameters. A record is named by
its address. `copyAndCompact` answers the returned size, the flag `couldRelocate` and the
insert map after the call. -/
structure RecordOps where
  /-- Constant `TELL_PAGE_SIZE`. -/
  TELL_PAGE_SIZE : Nat
  /-- The call `CDMRecord(addr).size()`. -/
  size : Nat → Nat
  /-- The call `CDMRecord(addr).key()`. -/
  key : Nat → Nat
  /-- The call `CDMRecord(addr).needsCleaning(lowestActiveVersion, insertMap)`. -/
  needsCleaning : Nat → Nat → InsertMap → Bool
  /-- The call `CDMRecord(addr).copyAndCompact(lowestActiveVersion, insertMap, dst, dstCap, couldRelocate)`. -/
  copyAndCompact : Nat → Nat → InsertMap → Nat → Nat → Nat × Bool × InsertMap
  /-- The same call on the 40-byte `dummyRecord` of `fillWithInserts` after `writeKey(key)`;
  the first argument is the key. -/
  dummyCopyAndCompact : Nat → Nat → InsertMap → Nat → Nat → Nat × Bool × InsertMap
  /-- Address of the n-th page handed out by the page manager. -/
  pageAddr : Nat → Nat

/-- The members of `RowStorePage` that `gc` and `fillWithInserts` use. -/
structure RowStorePage where
  mData : Nat
  mSize : Nat
  mStartOffset : Nat
  mFillPage : Option Nat
  mFillOffset : Nat
deriving DecidableEq

/-- A compacted record image written by a successful `copyAndCompact`: the fill page,
the offset in that page where the image begins, the key and the number of bytes. -/
structure Image where
  page : Nat
  offset : Nat
  key : Nat
  size : Nat
deriving DecidableEq

/-- Everything `gc` and `fillWithInserts` read or write: the page object, the two
reference arguments `insertMap` and `hashTable`, and the effects on memory and on the page
manager (pages marked for deletion, number of pages acquired, stores to the first 8 bytes
of fill pages with the newest first, images written into fill pages with the newest first). -/
structure GcState where
  page : RowStorePage
  insertMap : InsertMap
  hashTable : Modifier
  deleted : List Nat
  allocated : Nat
  headers : List (Nat × Nat)
  images : List Image
deriving DecidableEq

/-- What a call of `gc` leaves behind: the returned `char*`, the out-parameter `done`,
and the state. -/
structure GcResult where
  ret : Option Nat
  done : Bool
  state : GcState
deriving DecidableEq

/-- The iterator of a row-store page: `const char* current`. -/
structure Iterator where
  current : Nat
deriving DecidableEq

namespace Iterator

/-- Pre-increment `operator++()`: `CDMRecord rec(current); current += rec.size();`. -/
def incr (ops : RecordOps) (it : Iterator) : Iterator :=
  { current := it.current + ops.size it.current }

/-- Dereference `operator*()`: `return current;`. -/
def deref (it : Iterator) : Nat := it.current

end Iterator

namespace RowStorePage

/-- Method `begin()`: `return Iterator(mData + 8);`. -/
def begin (p : RowStorePage) : Iterator := { current := p.mData + 8 }

/-- Method `end()`: `return Iterator(mData + mSize);`. -/
def end_ (p : RowStorePage) : Iterator := { current := p.mData + p.mSize }

/-- Modelled from the spec: `markCurrentForDeletion()` (declared in `RowStorePage.hpp`,
not part of the sources): "mark the page for deferred deletion". -/
def markCurrentForDeletion (s : GcState) : GcState :=
  { s with deleted := s.page.mData :: s.deleted }

/-- Modelled from the spec: `constructFillPage()` (declared in `RowStorePage.hpp`, not part
of the sources), "construct new fill page if needed": when there is no fill page, one is
acquired from the page manager and the fill offset starts behind the 8 bytes that hold the
used length. -/
def constructFillPage (ops : RecordOps) (s : GcState) : GcState :=
  match s.page.mFillPage with
  | some _ => s
  | none =>
    { s with
      page := { s.page with mFillPage := some (ops.pageAddr s.allocated), mFillOffset := 8 }
      allocated := s.allocated + 1 }

/-- The loop of `fillWithInserts`:
`while (!insertMap.empty()) { auto fst = insertMap.begin(); uint64_t key = fst->first.key;
if (hashTable.get(key)) { insertMap.erase(fst); continue; }
dummy.writeKey(key); mFillOffset += dummy.copyAndCompact(..., mFillPage + mFillOffset,
TELL_PAGE_SIZE - mFillOffset, couldRelocate);
if (couldRelocate) { hashTable.insert(key, mFillPage + mFillOffset); insertMap.erase(fst); }
else break; }`.
The arguments of `copyAndCompact` are evaluated before `mFillOffset` is increased; the
pointer `hashTable.get(key)` is true when the key is bound. -/
def fillLoop (ops : RecordOps) (lowestActiveVersion : Nat) : Nat → GcState → Option GcState
  | 0, _ => none
  | fuel + 1, s =>
    match s.insertMap with
    | [] => some s
    | fst :: _ =>
      let key := fst.1
      if (s.hashTable.get key).isSome then
        fillLoop ops lowestActiveVersion fuel { s with insertMap := s.insertMap.erase key }
      else
        match s.page.mFillPage with
        | none => none
        | some fillPage =>
          let r := ops.dummyCopyAndCompact key lowestActiveVersion s.insertMap
            (fillPage + s.page.mFillOffset) (ops.TELL_PAGE_SIZE - s.page.mFillOffset)
          let fillOffset := s.page.mFillOffset + r.1
          if r.2.1 then
            fillLoop ops lowestActiveVersion fuel
              { s with
                page := { s.page with mFillOffset := fillOffset }
                images := { page := fillPage, offset := s.page.mFillOffset, key := key,
                            size := r.1 } :: s.images
                hashTable := s.hashTable.insert key (fillPage + fillOffset) false
                insertMap := InsertMap.erase r.2.2 key }
          else
            some { s with page := { s.page with mFillOffset := fillOffset }, insertMap := r.2.2 }

/-- The end of `fillWithInserts`:
`*reinterpret_cast<uint64_t*>(mFillPage) = mFillOffset; auto res = mFillPage;
mFillPage = nullptr; return res;`. -/
def releaseFillPage (s : GcState) : Option (Option Nat × GcState) :=
  match s.page.mFillPage with
  | none => none
  | some fillPage =>
    some (some fillPage,
      { s with
        headers := (fillPage, s.page.mFillOffset) :: s.headers
        page := { s.page with mFillPage := none } })

/-- Method `fillWithInserts(lowestActiveVersion, insertMap, hashTable)`: the returned
pointer and the state. -/
def fillWithInserts (ops : RecordOps) (lowestActiveVersion : Nat) (fuel : Nat) (s : GcState) :
    Option (Option Nat × GcState) :=
  match fillLoop ops lowestActiveVersion fuel (constructFillPage ops s) with
  | none => none
  | some s1 => releaseFillPage s1

/-- The first loop of `gc`, entered with `hasToClean = false`:
`while (offset <= mSize && !hasToClean) { CDMRecord rec(mData + offset);
if (rec.needsCleaning(lowestActiveVersion, insertMap)) { hasToClean = true; break; }
offset += rec.size(); }`. The answer is the final `hasToClean`. -/
def gcFirstPass (ops : RecordOps) (lowestActiveVersion : Nat) (s : GcState) :
    Nat → Nat → Option Bool
  | 0, _ => none
  | fuel + 1, offset =>
    if offset ≤ s.page.mSize then
      if ops.needsCleaning (s.page.mData + offset) lowestActiveVersion s.insertMap then some true
      else gcFirstPass ops lowestActiveVersion s fuel (offset + ops.size (s.page.mData + offset))
    else some false

/-- The second loop of `gc` together with the statements behind it:
`while (offset < mSize) { CDMRecord rec(mData + offset); bool couldRelocate = false;
auto nSize = rec.copyAndCompact(lowestActiveVersion, insertMap, mFillPage + mFillOffset,
TELL_PAGE_SIZE - mFillOffset, couldRelocate);
if (!couldRelocate) { *reinterpret_cast<uint64_t*>(mFillPage) = mFillOffset;
auto res = mFillPage; mFillPage = nullptr; done = false; return res; }
mFillOffset += nSize; hashTable.insert(rec.key(), mFillPage + mFillOffset, true);
offset += rec.size(); }
done = true; if (insertMap.size()) return fillWithInserts(...); return nullptr;`.
`fuelInserts` is the fuel handed to `fillWithInserts`. -/
def gcSecondPass (ops : RecordOps) (lowestActiveVersion : Nat) (fuelInserts : Nat) :
    Nat → GcState → Nat → Option GcResult
  | 0, _, _ => none
  | fuel + 1, s, offset =>
    if offset < s.page.mSize then
      match s.page.mFillPage with
      | none => none
      | some fillPage =>
        let r := ops.copyAndCompact (s.page.mData + offset) lowestActiveVersion s.insertMap
          (fillPage + s.page.mFillOffset) (ops.TELL_PAGE_SIZE - s.page.mFillOffset)
        if !r.2.1 then
          some { ret := some fillPage, done := false,
                 state := { s with
                   insertMap := r.2.2
                   headers := (fillPage, s.page.mFillOffset) :: s.headers
                   page := { s.page with mFillPage := none } } }
        else
          let fillOffset := s.page.mFillOffset + r.1
          gcSecondPass ops lowestActiveVersion fuelInserts fuel
            { s with
              insertMap := r.2.2
              images := { page := fillPage, offset := s.page.mFillOffset,
                          key := ops.key (s.page.mData + offset), size := r.1 } :: s.images
              page := { s.page with mFillOffset := fillOffset }
              hashTable := s.hashTable.insert (ops.key (s.page.mData + offset))
                (fillPage + fillOffset) true }
            (offset + ops.size (s.page.mData + offset))
    else if s.insertMap.length != 0 then
      match fillWithInserts ops lowestActiveVersion fuelInserts s with
      | none => none
      | some r => some { ret := r.1, done := true, state := r.2 }
    else some { ret := none, done := true, state := s }

/-- Method `gc(lowestActiveVersion, insertMap, done, hashTable)`:
`uint64_t offset = mStartOffset; bool hasToClean = mStartOffset != 8;` the first loop,
`if (!hasToClean) { done = true; return mData; }
if (mStartOffset == 8) markCurrentForDeletion(); constructFillPage(); offset = mStartOffset;`
and the second loop. -/
def gc (ops : RecordOps) (fuel : Nat) (lowestActiveVersion : Nat) (s : GcState) :
    Option GcResult :=
  match (if s.page.mStartOffset != 8 then some true
         else gcFirstPass ops lowestActiveVersion s fuel s.page.mStartOffset) with
  | none => none
  | some hasToClean =>
    if !hasToClean then some { ret := some s.page.mData, done := true, state := s }
    else
      let s1 := if s.page.mStartOffset == 8 then markCurrentForDeletion s else s
      let s2 := constructFillPage ops s1
      gcSecondPass ops lowestActiveVersion fuel fuel s2 s2.page.mStartOffset

/-- Every image written so far satisfies `P` against the current hash table. -/
def ImagesSatisfy (P : Image → Modifier → Prop) (s : GcState) : Prop :=
  ∀ img ∈ s.images, P img s.hashTable

/-- The key of every image written so far is bound in the hash table. -/
def KeysRegistered (s : GcState) : Prop :=
  ImagesSatisfy (fun img h => (h.get img.key).isSome = true) s

/-- The address `mFillPage + mFillOffset` that `gc` and `fillWithInserts` pass to
`hashTable.insert` for an image: both increase the fill offset by the size of the image
before the call, so it is the address behind the image. -/
def bindingOf (img : Image) : Nat :=
  img.page + (img.offset + img.size)

/-- Every image written so far has been registered through the Modifier: the binding that
`hashTable.insert` was called with for the image is held by the hash table, and the key of
the image resolves to the binding made for an image of that key (the newest one), not to
anything else a key may have been bound to before. -/
def BindingsRegistered (s : GcState) : Prop :=
  ∀ img ∈ s.images, (img.key, bindingOf img) ∈ s.hashTable ∧
    ∃ img2 ∈ s.images, img2.key = img.key ∧ s.hashTable.get img.key = some (bindingOf img2)

/-- The members that describe the source page are the same in both states. -/
def SameSource (s s' : GcState) : Prop :=
  s'.page.mData = s.page.mData ∧ s'.page.mSize = s.page.mSize ∧
    s'.page.mStartOffset = s.page.mStartOffset

/-- The call of `copyAndCompact` in `fillWithInserts` adds no keys to the insert map: the
keys of the map after the call are keys of the map before the call, in the same order. -/
def NoKeysAdded (ops : RecordOps) : Prop :=
  ∀ (key lav : Nat) (insertMap : InsertMap) (dst dstCap : Nat),
    ((ops.dummyCopyAndCompact key lav insertMap dst dstCap).2.2.map Prod.fst).Sublist
      (insertMap.map Prod.fst)

/-- The loop of `fillWithInserts` has left through `break` with state `s1`: in some loop
state `sl` the first key of the insert map was unbound in the hash table and
`copyAndCompact` reported `couldRelocate = false` for it; `s1` is `sl` with the returned
size added to the fill offset and with the insert map the call left. -/
def FillStopped (ops : RecordOps) (lav : Nat) (s1 : GcState) : Prop :=
  ∃ (sl : GcState) (fst : Nat × List Nat) (rest : InsertMap) (fillPage : Nat),
    sl.insertMap = fst :: rest ∧ (sl.hashTable.get fst.1).isSome = false ∧
    sl.page.mFillPage = some fillPage ∧
    (ops.dummyCopyAndCompact fst.1 lav sl.insertMap (fillPage + sl.page.mFillOffset)
      (ops.TELL_PAGE_SIZE - sl.page.mFillOffset)).2.1 = false ∧
    s1 = { sl with
      page := { sl.page with mFillOffset := sl.page.mFillOffset +
        (ops.dummyCopyAndCompact fst.1 lav sl.insertMap (fillPage + sl.page.mFillOffset)
          (ops.TELL_PAGE_SIZE - sl.page.mFillOffset)).1 }
      insertMap := (ops.dummyCopyAndCompact fst.1 lav sl.insertMap
        (fillPage + sl.page.mFillOffset) (ops.TELL_PAGE_SIZE - sl.page.mFillOffset)).2.2 }

/-- Both calls of `copyAndCompact` return at most `dstCap` bytes when they report
`couldRelocate = true` and 0 bytes when they report `couldRelocate = false`. -/
def SizeBounded (ops : RecordOps) : Prop :=
  ∀ (rec lav : Nat) (insertMap : InsertMap) (dst dstCap : Nat),
    ((ops.copyAndCompact rec lav insertMap dst dstCap).2.1 = true →
      (ops.copyAndCompact rec lav insertMap dst dstCap).1 ≤ dstCap) ∧
    ((ops.copyAndCompact rec lav insertMap dst dstCap).2.1 = false →
      (ops.copyAndCompact rec lav insertMap dst dstCap).1 = 0) ∧
    ((ops.dummyCopyAndCompact rec lav insertMap dst dstCap).2.1 = true →
      (ops.dummyCopyAndCompact rec lav insertMap dst dstCap).1 ≤ dstCap) ∧
    ((ops.dummyCopyAndCompact rec lav insertMap dst dstCap).2.1 = false →
      (ops.dummyCopyAndCompact rec lav insertMap dst dstCap).1 = 0)

/-- The used lengths stored in fill page headers and the images written so far lie inside
a page: every stored header value is at most `TELL_PAGE_SIZE` and every image ends at or
before `TELL_PAGE_SIZE`. -/
def WrittenWithinPage (ops : RecordOps) (s : GcState) : Prop :=
  (∀ h ∈ s.headers, h.2 ≤ ops.TELL_PAGE_SIZE) ∧
    ∀ img ∈ s.images, img.offset + img.size ≤ ops.TELL_PAGE_SIZE

/-- The fill offset of an existing fill page is at most `TELL_PAGE_SIZE`, and so is
everything written so far. -/
def WithinPage (ops : RecordOps) (s : GcState) : Prop :=
  (s.page.mFillPage.isSome = true → s.page.mFillOffset ≤ ops.TELL_PAGE_SIZE) ∧
    WrittenWithinPage ops s

/-- The fill offset lies between `lo` and `TELL_PAGE_SIZE`, and everything written so far
lies inside a page. -/
def FillBounded (ops : RecordOps) (lo : Nat) (s : GcState) : Prop :=
  lo ≤ s.page.mFillOffset ∧ s.page.mFillOffset ≤ ops.TELL_PAGE_SIZE ∧
    WrittenWithinPage ops s

/-- The records of sizes `sizes` lie one behind the other from address `addr` on. -/
def holdsRecords (ops : RecordOps) : Nat → List Nat → Prop
  | _, [] => True
  | addr, sz :: rest => ops.size addr = sz ∧ holdsRecords ops (addr + sz) rest

end RowStorePage

/-! ## client/Client.cpp -/

/-- The `n` low bytes of `v`, lowest byte first: the bytes a little-endian machine stores
for an `n`-byte integer. -/
def littleEndian : Nat → Nat → List Nat
  | 0, _ => []
  | n + 1, v => v % 256 :: littleEndian n (v / 256)

/-- The integer a little-endian machine reads from a sequence of bytes. -/
def fromLittleEndian : List Nat → Nat
  | [] => 0
  | b :: rest => b + 256 * fromLittleEndian rest

/-- Modelled from the spec: `crossbow::infinio::BufferWriter` (`crossbow/infinio/ByteBuffer.hpp`
is not part of the sources), the writer of the "little-endian, 8-byte aligned" query format.
`buffer` is the address the writer was created on, `mPos` the address of the next byte,
`mEnd` the address behind the buffer, `bytes` the content of the buffer, where `none` is a
byte that was never written. -/
structure BufferWriter where
  buffer : Nat
  mPos : Nat
  mEnd : Nat
  bytes : List (Option Nat)
deriving DecidableEq

namespace BufferWriter

/-- Modelled from the spec: `BufferWriter(char* pos, size_t length)` on a buffer just
obtained from `new char[length]`. -/
def new (pos length : Nat) : BufferWriter :=
  { buffer := pos, mPos := pos, mEnd := pos + length, bytes := List.replicate length none }

/-- Modelled from the spec: the store of a sequence of bytes at `mPos`, which advances
`mPos` behind them. A store that does not lie inside the buffer has no result. -/
def store (w : BufferWriter) (bs : List Nat) : Option BufferWriter :=
  if w.buffer ≤ w.mPos ∧ w.mPos + bs.length ≤ w.mEnd then
    some { w with
      bytes := w.bytes.take (w.mPos - w.buffer) ++ bs.map some ++
        w.bytes.drop (w.mPos - w.buffer + bs.length)
      mPos := w.mPos + bs.length }
  else none

/-- Modelled from the spec: `write<T>(value)` for an unsigned `T` of `size` bytes. -/
def write (w : BufferWriter) (size value : Nat) : Option BufferWriter :=
  w.store (littleEndian size value)

/-- Modelled from the spec: `write<int32_t>(value)`, the two's complement of the value. -/
def writeInt32 (w : BufferWriter) (value : Int) : Option BufferWriter :=
  w.store (littleEndian 4 (value % 2 ^ 32).toNat)

/-- Modelled from the spec: `align(alignment)`, which moves `mPos` up to the next address
that is a multiple of `alignment`. -/
def align (w : BufferWriter) (alignment : Nat) : BufferWriter :=
  if w.mPos % alignment != 0 then
    { w with mPos := w.mPos + (alignment - w.mPos % alignment) }
  else w

end BufferWriter

namespace Client

/-- The first part of the query written by `doScan`, for the buffer address `query`
and the field id `recordField`:
`uint32_t queryLength = 24; std::unique_ptr<char[]> query(new char[queryLength]);
BufferWriter queryWriter(query.get(), queryLength);
queryWriter.write<uint64_t>(0x1u); queryWriter.write<uint16_t>(recordField);
queryWriter.write<uint16_t>(0x1u); queryWriter.align(sizeof(uint64_t));`. -/
def doScanConjunct (query recordField : Nat) : Option BufferWriter :=
  match (BufferWriter.new query 24).write 8 1 with
  | none => none
  | some w1 =>
    match w1.write 2 recordField with
    | none => none
    | some w2 =>
      match w2.write 2 1 with
      | none => none
      | some w3 => some (w3.align 8)

/-- The second part: `queryWriter.write<uint8_t>(crossbow::to_underlying(
PredicateType::GREATER_EQUAL)); queryWriter.write<uint8_t>(0x0u);
queryWriter.align(sizeof(uint32_t));`. The value of the enumerator, declared outside the
sources, is the parameter `greaterEqual`. -/
def doScanPredicate (query recordField greaterEqual : Nat) : Option BufferWriter :=
  match doScanConjunct query recordField with
  | none => none
  | some w4 =>
    match w4.write 1 greaterEqual with
    | none => none
    | some w5 =>
      match w5.write 1 0 with
      | none => none
      | some w6 => some (w6.align 4)

/-- The query buffer of `doScan`: the two parts and
`queryWriter.write<int32_t>(mTuple.size() - mTuple.size() * selectivity);`, where
`threshold` is the value of the argument after its conversion to `int32_t`. -/
def doScanQuery (query recordField greaterEqual : Nat) (threshold : Int) :
    Option BufferWriter :=
  match doScanPredicate query recordField greaterEqual with
  | none => none
  | some w7 => w7.writeInt32 threshold

end Client

/-! ## Concrete pages

A store configured with `TELL_PAGE_SIZE = 64`. The source page lies at address 64, the page
manager hands out the pages at 128, 192, ... Records are 24 bytes long and carry their own
address as key. -/

namespace Sample

/-- Record operations of the sample store: a record compacts to an image of 32 bytes (its
pending log updates are inlined) when 32 bytes are free, a drained insert to an image of
16 bytes when 16 bytes are free; `dirty` says which records need cleaning. -/
def ops (dirty : Nat → Bool) : RecordOps :=
  { TELL_PAGE_SIZE := 64
    size := fun _ => 24
    key := fun addr => addr
    needsCleaning := fun addr _ _ => dirty addr
    copyAndCompact := fun _ _ insertMap _ dstCap =>
      if 32 ≤ dstCap then (32, true, insertMap) else (0, false, insertMap)
    dummyCopyAndCompact := fun _ _ insertMap _ dstCap =>
      if 16 ≤ dstCap then (16, true, insertMap) else (0, false, insertMap)
    pageAddr := fun n => 128 + 64 * n }

/-- A page at address 64 with used length `mSize` that `gc` has not visited yet, an insert
map, an empty hash table and no fill page. -/
def fresh (mSize : Nat) (insertMap : InsertMap) : GcState :=
  { page := { mData := 64, mSize := mSize, mStartOffset := 8, mFillPage := none,
              mFillOffset := 0 }
    insertMap := insertMap
    hashTable := []
    deleted := []
    allocated := 0
    headers := []
    images := [] }

/-- Record operations under which the bytes behind the used range of a page are read as a
record of size 0 and no record needs cleaning. -/
def opsZeroTail (used : Nat) : RecordOps :=
  { ops (fun _ => false) with size := fun addr => if addr < 64 + used then 24 else 0 }

end Sample

/-! ## Theorems: util/Log.hpp -/

namespace LogEntry

theorem sealLoop_step (fuel : Nat) (e : LogEntry) :
    sealLoop (fuel + 2) e e.mOffset
      = some { e with mOffset := if e.mOffset % 2 = 1 then e.mOffset - 1 else e.mOffset } := by
  rcases Nat.mod_two_eq_zero_or_one e.mOffset with h | h
  · simp [sealLoop, h]
  · have h2 : (e.mOffset - 1) % 2 = 0 := by omega
    simp [sealLoop, compare_exchange_strong, h, h2]

/-- Claim C1: for every reserved offset `o` and every size `s`, the constructed entry
stores the header `(o | 1, s)` and is unsealed. A reserved offset is a `uint32_t` with a
clear least-significant bit: that bit of the offset field carries the unsealed flag, and
`offset()` of every entry is even. -/
theorem new_even_offset_unsealed (o s : Nat) (ho : o < UINT32_MOD) (he : o % 2 = 0) :
    (LogEntry.new o s).mOffset = o ||| 1 ∧ (LogEntry.new o s).size = s ∧
      (LogEntry.new o s).sealed = false := by
  have hlt : o + 1 < UINT32_MOD := by
    unfold UINT32_MOD at ho ⊢
    omega
  have hor : o ||| 1 = o + 1 := by
    have h := Nat.mul_add_lt_is_or (show 1 < 2 ^ 1 by norm_num) (o / 2)
    have h2 : 2 ^ 1 * (o / 2) = o := by omega
    rw [h2] at h
    exact h.symm
  refine ⟨?_, rfl, ?_⟩
  · simp [LogEntry.new, Nat.mod_eq_of_lt hlt, hor]
  · simp only [LogEntry.new, LogEntry.sealed, Nat.mod_eq_of_lt hlt]
    have : (o + 1) % 2 = 1 := by omega
    simp [this]

theorem new_even_offset_unsealed_witness :
    (LogEntry.new 16 40).mOffset = 16 ||| 1 ∧ (LogEntry.new 16 40).size = 40 ∧
      (LogEntry.new 16 40).sealed = false :=
  new_even_offset_unsealed 16 40 (by decide) (by decide)

/-- Claim C2: for every log entry, `seal()` returns (any fuel of at least 2 is enough), the
entry is sealed afterwards, `offset()` and `size` are what they were, and the offset field
is lowered by exactly 1 when it was odd and left as is when it was even. -/
theorem seal_seals (e : LogEntry) (n : Nat) :
    ∃ e', e.seal (n + 2) = some e' ∧ e'.sealed = true ∧ e'.offset = e.offset ∧
      e'.size = e.size ∧
      e'.mOffset = (if e.mOffset % 2 = 1 then e.mOffset - 1 else e.mOffset) := by
  refine ⟨_, sealLoop_step n e, ?_, ?_, rfl, rfl⟩
  · rcases Nat.mod_two_eq_zero_or_one e.mOffset with h | h
    · simp [LogEntry.sealed, h]
    · have h2 : (e.mOffset - 1) % 2 = 0 := by omega
      simp [LogEntry.sealed, h, h2]
  · rcases Nat.mod_two_eq_zero_or_one e.mOffset with h | h
    · simp [LogEntry.offset, h]
    · have h2 : (e.mOffset - 1) % 2 = 0 := by omega
      simp [LogEntry.offset, h, h2]

/-- Claim C3: `seal` is idempotent: sealing twice leaves the state of sealing once, and
sealing an already sealed entry leaves the entry as it is. -/
theorem seal_idempotent (e : LogEntry) (n m : Nat) :
    (e.seal (n + 2)).bind (LogEntry.seal (m + 2)) = e.seal (n + 2) ∧
      (e.sealed = true → e.seal (m + 1) = some e) := by
  constructor
  · rcases Nat.mod_two_eq_zero_or_one e.mOffset with h | h
    · simp [LogEntry.seal, sealLoop_step, h]
    · have h2 : (e.mOffset - 1) % 2 = 0 := by omega
      simp [LogEntry.seal, sealLoop_step, h, h2]
  · intro hs
    have h : e.mOffset % 2 = 0 := by simpa [LogEntry.sealed] using hs
    simp [LogEntry.seal, sealLoop, h]

end LogEntry

namespace LogPage

/-- Claim C10: `next()` addresses byte 0 and `offset()` byte 8 of the page, as the layout
comment says, but `begin()` answers the address of the page itself: the first entry lies
on the `next` field, 16 bytes before `LOG_HEADER_SIZE = DATA_OFFSET = 16`. -/
theorem begin_is_page_start (p : LogPage) :
    p.next = p.page + 0 ∧ p.offset = p.page + 8 ∧
      LOG_HEADER_SIZE = 16 ∧ DATA_OFFSET = 16 ∧
      p.begin = p.next ∧ p.begin + 16 = p.page + LOG_HEADER_SIZE ∧
      p.begin ≠ p.page + DATA_OFFSET := by
  simp [LogPage.next, LogPage.offset, LogPage.begin, LOG_HEADER_SIZE, DATA_OFFSET,
    SIZEOF_POINTER]

end LogPage

/-! ## Theorems: util/TransactionImpl.hpp -/

namespace TransactionImpl

variable {D : Type}

theorem calls_of_committed (cs : List TxCall) (t : TransactionImpl D)
    (trace : List (Notification D)) (h : t.mCommitted = true) :
    calls cs t trace = some (t, trace) := by
  induction cs with
  | nil => rfl
  | cons c rest ih =>
    cases c <;> simp [calls, call, commit, abort, h, ih]

theorem calls_cons_new (storage : Nat) (snapshot : D) (c : TxCall) (rest : List TxCall) :
    calls (c :: rest) (new storage snapshot) []
      = some ({ mStorage := storage, mDescriptor := some snapshot, mCommitted := true },
          [{ storage := storage, call := c, descriptor := snapshot }]) := by
  cases c <;>
    simp [calls, call, commit, abort, notify, new, calls_of_committed]

/-- Claim C4: over the life of a holder (construction, any sequence of explicit `commit()`
and `abort()` calls, destruction) the storage is notified exactly once for the holder's
descriptor: by the first explicit call, with its kind, or by the implicit commit of the
destructor when there was no explicit call; whatever follows the first explicit call
(`rest`, and the destructor) notifies nothing. -/
theorem lifetime_notifies_once (storage : Nat) (snapshot : D) (cs : List TxCall) :
    lifetime storage snapshot cs
        = some [{ storage := storage, call := cs.head?.getD TxCall.commit,
                  descriptor := snapshot }] ∧
      ∀ c rest, (calls (c :: rest) (new storage snapshot) []).map Prod.snd
          = some [{ storage := storage, call := c, descriptor := snapshot }] ∧
        lifetime storage snapshot (c :: rest)
          = (calls [c] (new storage snapshot) []).map Prod.snd := by
  constructor
  · cases cs with
    | nil => simp [lifetime, calls, destroy, notify, new]
    | cons c rest => simp [lifetime, calls_cons_new, destroy]
  · intro c rest
    simp [lifetime, calls_cons_new, destroy]

end TransactionImpl

/-! ## Theorems: deltamain/rowstore/RowStorePage.cpp -/

theorem Modifier.get_insert_self (h : Modifier) (key ptr : Nat) (replace : Bool) :
    ((h.insert key ptr replace).get key).isSome = true := by
  unfold Modifier.insert
  split
  · simp [Modifier.get, List.find?]
  · rename_i hc
    simp only [Bool.or_eq_true, not_or] at hc
    cases hg : Modifier.get h key with
    | none => simp [hg] at hc
    | some v => rfl

theorem Modifier.get_insert_mono (h : Modifier) (key ptr : Nat) (replace : Bool) (k : Nat)
    (hk : (h.get k).isSome = true) : ((h.insert key ptr replace).get k).isSome = true := by
  unfold Modifier.insert
  split
  · by_cases hkk : key = k
    · simp [Modifier.get, List.find?, hkk]
    · have : (key == k) = false := by simpa using hkk
      simpa [Modifier.get, List.find?, this] using hk
  · exact hk

namespace RowStorePage



variable (ops : RecordOps) (lav : Nat) (P : Image → Modifier → Prop)

theorem fillLoop_imagesSatisfy
    (hmono : ∀ img h key ptr replace, P img h → P img (Modifier.insert h key ptr replace))
    (hnew : ∀ (h : Modifier) (fp fo key n : Nat) (replace : Bool),
      (replace = true ∨ (h.get key).isSome = false) →
      P { page := fp, offset := fo, key := key, size := n }
        (h.insert key (fp + (fo + n)) replace)) :
    ∀ (fuel : Nat) (s s' : GcState), ImagesSatisfy P s →
      fillLoop ops lav fuel s = some s' → ImagesSatisfy P s'
  | 0, s, s', _, h => by simp [fillLoop] at h
  | fuel + 1, s, s', hinv, h => by
    rw [fillLoop] at h
    dsimp only at h
    split at h
    · cases h; exact hinv
    · split at h
      · refine fillLoop_imagesSatisfy hmono hnew fuel _ _ ?_ h
        exact hinv
      · rename_i hget
        split at h
        · cases h
        · split at h
          · refine fillLoop_imagesSatisfy hmono hnew fuel _ _ ?_ h
            intro img himg
            dsimp only at himg ⊢
            simp only [List.mem_cons] at himg
            rcases himg with rfl | himg
            · exact hnew _ _ _ _ _ _ (Or.inr (by simpa using hget))
            · exact hmono _ _ _ _ _ (hinv img himg)
          · cases h; exact hinv

theorem constructFillPage_imagesSatisfy (s : GcState) (hinv : ImagesSatisfy P s) :
    ImagesSatisfy P (constructFillPage ops s) := by
  unfold constructFillPage
  split
  · exact hinv
  · exact hinv

theorem releaseFillPage_imagesSatisfy (s : GcState) (r : Option Nat × GcState)
    (hinv : ImagesSatisfy P s) (h : releaseFillPage s = some r) : ImagesSatisfy P r.2 := by
  unfold releaseFillPage at h
  split at h
  · cases h
  · cases h; exact hinv

theorem fillWithInserts_imagesSatisfy
    (hmono : ∀ img h key ptr replace, P img h → P img (Modifier.insert h key ptr replace))
    (hnew : ∀ (h : Modifier) (fp fo key n : Nat) (replace : Bool),
      (replace = true ∨ (h.get key).isSome = false) →
      P { page := fp, offset := fo, key := key, size := n }
        (h.insert key (fp + (fo + n)) replace))
    (fuel : Nat) (s : GcState) (r : Option Nat × GcState) (hinv : ImagesSatisfy P s)
    (h : fillWithInserts ops lav fuel s = some r) : ImagesSatisfy P r.2 := by
  unfold fillWithInserts at h
  split at h
  · cases h
  · rename_i s1 hs1
    exact releaseFillPage_imagesSatisfy P s1 r
      (fillLoop_imagesSatisfy ops lav P hmono hnew fuel _ _
        (constructFillPage_imagesSatisfy ops P s hinv) hs1) h

theorem gcSecondPass_imagesSatisfy
    (hmono : ∀ img h key ptr replace, P img h → P img (Modifier.insert h key ptr replace))
    (hnew : ∀ (h : Modifier) (fp fo key n : Nat) (replace : Bool),
      (replace = true ∨ (h.get key).isSome = false) →
      P { page := fp, offset := fo, key := key, size := n }
        (h.insert key (fp + (fo + n)) replace))
    (fuelInserts : Nat) :
    ∀ (fuel : Nat) (s : GcState) (offset : Nat) (r : GcResult), ImagesSatisfy P s →
      gcSecondPass ops lav fuelInserts fuel s offset = some r → ImagesSatisfy P r.state
  | 0, s, offset, r, _, h => by simp [gcSecondPass] at h
  | fuel + 1, s, offset, r, hinv, h => by
    rw [gcSecondPass] at h
    dsimp only at h
    split at h
    · split at h
      · cases h
      · split at h
        · cases h; exact hinv
        · refine gcSecondPass_imagesSatisfy hmono hnew fuelInserts fuel _ _ r ?_ h
          intro img himg
          dsimp only at himg ⊢
          simp only [List.mem_cons] at himg
          rcases himg with rfl | himg
          · exact hnew _ _ _ _ _ _ (Or.inl rfl)
          · exact hmono _ _ _ _ _ (hinv img himg)
    · split at h
      · split at h
        · cases h
        · rename_i r1 hr1
          cases h
          exact fillWithInserts_imagesSatisfy ops lav P hmono hnew fuelInserts s r1 hinv hr1
      · cases h; exact hinv

theorem gc_imagesSatisfy
    (hmono : ∀ img h key ptr replace, P img h → P img (Modifier.insert h key ptr replace))
    (hnew : ∀ (h : Modifier) (fp fo key n : Nat) (replace : Bool),
      (replace = true ∨ (h.get key).isSome = false) →
      P { page := fp, offset := fo, key := key, size := n }
        (h.insert key (fp + (fo + n)) replace))
    (fuel : Nat) (s : GcState) (r : GcResult) (hinv : ImagesSatisfy P s)
    (h : gc ops fuel lav s = some r) : ImagesSatisfy P r.state := by
  unfold gc at h
  split at h
  · cases h
  · split at h
    · cases h; exact hinv
    · refine gcSecondPass_imagesSatisfy ops lav P hmono hnew fuel fuel _ _ r ?_ h
      apply constructFillPage_imagesSatisfy
      split
      · exact hinv
      · exact hinv

/-! ### The source page members are never written -/

theorem fillLoop_sameSource :
    ∀ (fuel : Nat) (s s' : GcState), fillLoop ops lav fuel s = some s' → SameSource s s'
  | 0, s, s', h => by simp [fillLoop] at h
  | fuel + 1, s, s', h => by
    rw [fillLoop] at h
    dsimp only at h
    split at h
    · cases h; exact ⟨rfl, rfl, rfl⟩
    · split at h
      · have h1 := fillLoop_sameSource fuel _ _ h
        exact h1
      · split at h
        · cases h
        · split at h
          · have h1 := fillLoop_sameSource fuel _ _ h
            exact h1
          · cases h; exact ⟨rfl, rfl, rfl⟩

theorem constructFillPage_sameSource (s : GcState) : SameSource s (constructFillPage ops s) := by
  unfold constructFillPage
  split
  · exact ⟨rfl, rfl, rfl⟩
  · exact ⟨rfl, rfl, rfl⟩

theorem SameSource.trans {a b c : GcState} (hab : SameSource a b) (hbc : SameSource b c) :
    SameSource a c :=
  ⟨hbc.1.trans hab.1, hbc.2.1.trans hab.2.1, hbc.2.2.trans hab.2.2⟩

theorem fillWithInserts_sameSource (fuel : Nat) (s : GcState) (r : Option Nat × GcState)
    (h : fillWithInserts ops lav fuel s = some r) : SameSource s r.2 := by
  unfold fillWithInserts at h
  split at h
  · cases h
  · rename_i s1 hs1
    have h1 := (constructFillPage_sameSource ops s).trans (fillLoop_sameSource ops lav fuel _ _ hs1)
    unfold releaseFillPage at h
    split at h
    · cases h
    · cases h; exact h1

theorem gcSecondPass_sameSource (fuelInserts : Nat) :
    ∀ (fuel : Nat) (s : GcState) (offset : Nat) (r : GcResult),
      gcSecondPass ops lav fuelInserts fuel s offset = some r → SameSource s r.state
  | 0, s, offset, r, h => by simp [gcSecondPass] at h
  | fuel + 1, s, offset, r, h => by
    rw [gcSecondPass] at h
    dsimp only at h
    split at h
    · split at h
      · cases h
      · split at h
        · cases h; exact ⟨rfl, rfl, rfl⟩
        · have h1 := gcSecondPass_sameSource fuelInserts fuel _ _ r h
          exact h1
    · split at h
      · split at h
        · cases h
        · rename_i r1 hr1
          cases h
          exact fillWithInserts_sameSource ops lav fuelInserts s r1 hr1
      · cases h; exact ⟨rfl, rfl, rfl⟩

theorem gc_sameSource (fuel : Nat) (s : GcState) (r : GcResult)
    (h : gc ops fuel lav s = some r) : SameSource s r.state := by
  unfold gc at h
  split at h
  · cases h
  · split at h
    · cases h; exact ⟨rfl, rfl, rfl⟩
    · refine SameSource.trans ?_ (gcSecondPass_sameSource ops lav fuel fuel _ _ r h)
      refine SameSource.trans ?_ (constructFillPage_sameSource ops _)
      split
      · exact ⟨rfl, rfl, rfl⟩
      · exact ⟨rfl, rfl, rfl⟩

/-! ### Iteration -/

theorem iterate_incr_current (ops : RecordOps) :
    ∀ (sizes : List Nat) (addr k : Nat), holdsRecords ops addr sizes → k ≤ sizes.length →
      ((Iterator.incr ops)^[k] { current := addr }).current = addr + (sizes.take k).sum
  | _, _, 0, _, _ => by simp
  | [], _, k + 1, _, hk => by simp at hk
  | sz :: rest, addr, k + 1, hrec, hk => by
    have hstep : Iterator.incr ops { current := addr } = { current := addr + sz } := by
      simp [Iterator.incr, hrec.1]
    rw [Function.iterate_succ_apply, hstep,
      iterate_incr_current ops rest (addr + sz) k hrec.2 (by simpa using hk)]
    simp [List.take, Nat.add_assoc]

theorem sum_take_lt_sum :
    ∀ (sizes : List Nat) (k : Nat), (∀ sz ∈ sizes, 0 < sz) → k < sizes.length →
      (sizes.take k).sum < sizes.sum
  | [], _, _, hk => by simp at hk
  | sz :: rest, 0, hpos, _ => by
    have h := hpos sz (List.mem_cons_self sz rest)
    simp only [List.take_zero, List.sum_nil, List.sum_cons]
    omega
  | sz :: rest, k + 1, hpos, hk => by
    have h := sum_take_lt_sum rest k (fun x hx => hpos x (List.mem_cons_of_mem sz hx))
      (by simpa using hk)
    simp only [List.take_succ_cons, List.sum_cons]
    omega

/-- Claim C9: `begin()` is at byte offset 8 and `end()` at byte offset `mSize`; on a page
that holds records of positive sizes s1..sn with 8 + s1 + ... + sn = mSize, the iterator
stands after k increments (k ≤ n) at offset 8 + s1 + ... + sk, it equals `end()` after n
increments and after no smaller number of increments. -/
theorem iteration_visits_records (ops : RecordOps) (p : RowStorePage) (sizes : List Nat)
    (hpos : ∀ sz ∈ sizes, 0 < sz) (hrec : holdsRecords ops (p.mData + 8) sizes)
    (hused : 8 + sizes.sum = p.mSize) :
    p.begin.deref = p.mData + 8 ∧ p.end_.deref = p.mData + p.mSize ∧
      (∀ k, k ≤ sizes.length →
        ((Iterator.incr ops)^[k] p.begin).deref = p.mData + (8 + (sizes.take k).sum)) ∧
      (Iterator.incr ops)^[sizes.length] p.begin = p.end_ ∧
      ∀ k, k < sizes.length → (Iterator.incr ops)^[k] p.begin ≠ p.end_ := by
  have hk : ∀ k, k ≤ sizes.length →
      ((Iterator.incr ops)^[k] p.begin).current = p.mData + (8 + (sizes.take k).sum) := by
    intro k hk
    have h := iterate_incr_current ops sizes (p.mData + 8) k hrec hk
    simpa [RowStorePage.begin, Nat.add_assoc] using h
  refine ⟨rfl, rfl, hk, ?_, ?_⟩
  · have h := hk sizes.length (Nat.le_refl _)
    rw [List.take_length, hused] at h
    cases hit : (Iterator.incr ops)^[sizes.length] p.begin with
    | mk c =>
      rw [hit] at h
      simp only [RowStorePage.end_]
      simpa using h
  · intro k hlt heq
    have h := hk k (Nat.le_of_lt hlt)
    have hs := sum_take_lt_sum sizes k hpos hlt
    rw [heq] at h
    simp only [RowStorePage.end_] at h
    omega

theorem iteration_visits_records_witness :
    (Sample.fresh 56 []).page.begin.deref = 64 + 8 ∧
      (Iterator.incr (Sample.ops fun _ => false))^[1]
        (Sample.fresh 56 []).page.begin = { current := 64 + 32 } ∧
      (Iterator.incr (Sample.ops fun _ => false))^[2]
        (Sample.fresh 56 []).page.begin
        = (Sample.fresh 56 []).page.end_ := by
  have h := iteration_visits_records (Sample.ops fun _ => false)
    (Sample.fresh 56 []).page
    [24, 24] (by decide) ⟨rfl, rfl, trivial⟩ rfl
  refine ⟨h.1, ?_, h.2.2.2.1⟩
  have h1 := h.2.2.1 1 (by decide)
  cases hit : (Iterator.incr (Sample.ops fun _ => false))^[1]
      (Sample.fresh 56 []).page.begin with
  | mk c =>
    rw [hit] at h1
    simpa [Iterator.deref] using h1

/-! ### Garbage collection on sample pages and the registration invariant -/

/-- Claim C5: on a page with one record (key 72) and one pending insert (key 9), `gc`
writes the image of key 72 at offset 8 and the image of key 9 at offset 40 of the fill page
128, but binds key 72 to 128 + 40 and key 9 to 128 + 56: each key is bound to the address
behind its image (the fill offset after the copy), not to the address where it begins. -/
theorem gc_binds_key_behind_image :
    (gc (Sample.ops fun _ => true) 5 9 (Sample.fresh 32 [(9, [])])).map
        (fun r => (r.ret, r.done, r.state.images, r.state.hashTable.get 72,
          r.state.hashTable.get 9))
      = some (some 128, true,
          [{ page := 128, offset := 40, key := 9, size := 16 },
           { page := 128, offset := 8, key := 72, size := 32 }],
          some (128 + 40), some (128 + 56)) := by
  decide

/-- Claim C6: on a page with two records, at offsets 8 and 32, the fill page is full when
the second record is copied: `gc` stores the fill offset 40 in the header of fill page 128
and returns it with `done = false`, but `mStartOffset` is still 8, not 32. The next call
marks the page for deletion a second time and copies the record at offset 8 again (into
fill page 192), and stops at offset 32 as before. -/
theorem gc_resumes_at_page_start :
    (gc (Sample.ops fun _ => true) 5 9 (Sample.fresh 56 [])).map
        (fun r => (r.ret, r.done, r.state.headers, r.state.page.mStartOffset,
          r.state.images))
      = some (some 128, false, [(128, 40)], 8,
          [{ page := 128, offset := 8, key := 72, size := 32 }]) ∧
    ((gc (Sample.ops fun _ => true) 5 9 (Sample.fresh 56 [])).bind
        (fun r => gc (Sample.ops fun _ => true) 5 9 r.state)).map
        (fun r => (r.ret, r.done, r.state.headers, r.state.page.mStartOffset,
          r.state.images, r.state.deleted))
      = some (some 192, false, [(192, 40), (128, 40)], 8,
          [{ page := 192, offset := 8, key := 72, size := 32 },
           { page := 128, offset := 8, key := 72, size := 32 }], [64, 64]) :=
  ⟨rfl, rfl⟩

theorem gcFirstPass_zeroTail (fuel : Nat) :
    gcFirstPass (Sample.opsZeroTail 32) 9 (Sample.fresh 32 []) fuel 32 = none := by
  induction fuel with
  | zero => rfl
  | succ n ih =>
    rw [gcFirstPass]
    simpa [Sample.opsZeroTail, Sample.ops, Sample.fresh] using ih

/-- Claim C7: a page with used length 32 holds one record, at offset 8, and it does not
need cleaning. The first loop of `gc` runs while `offset <= mSize` and so also inspects the
bytes at offset 32, behind the used range. When they read as a record that needs cleaning,
`gc` marks the page for deletion, acquires fill page 128, copies the record, binds its key
and returns null. When they read as a record of size 0, `gc` does not return at all. -/
theorem gc_clean_page_reads_behind_used :
    (Sample.ops fun addr => addr == 96).needsCleaning (64 + 8) 9 [] = false ∧
    (gc (Sample.ops fun addr => addr == 96) 5 9 (Sample.fresh 32 [])).map
        (fun r => (r.ret, r.done, r.state.deleted, r.state.allocated, r.state.page.mFillPage,
          r.state.hashTable))
      = some (none, true, [64], 1, some 128, [(72, 168)]) ∧
    ∀ fuel, gc (Sample.opsZeroTail 32) fuel 9 (Sample.fresh 32 []) = none := by
  refine ⟨by decide, rfl, ?_⟩
  intro fuel
  cases fuel with
  | zero => rfl
  | succ n =>
    have h := gcFirstPass_zeroTail n
    simp only [Sample.opsZeroTail, Sample.ops, Sample.fresh] at h
    simp [gc, gcFirstPass, Sample.opsZeroTail, Sample.ops, Sample.fresh, h]

theorem fillLoop_copiesRegistered (Q : List Image → Modifier → Prop)
    (hstep : ∀ (images : List Image) (h : Modifier) (fp fo key n : Nat) (replace : Bool),
      (replace = true ∨ (h.get key).isSome = false) → Q images h →
      Q ({ page := fp, offset := fo, key := key, size := n } :: images)
        (h.insert key (fp + (fo + n)) replace)) :
    ∀ (fuel : Nat) (s s1 : GcState), Q s.images s.hashTable →
      fillLoop ops lav fuel s = some s1 → Q s1.images s1.hashTable
  | 0, s, s1, _, h => by simp [fillLoop] at h
  | fuel + 1, s, s1, hinv, h => by
    rw [fillLoop] at h
    dsimp only at h
    split at h
    · cases h; exact hinv
    · split at h
      · refine fillLoop_copiesRegistered Q hstep fuel _ _ ?_ h
        exact hinv
      · rename_i hget
        split at h
        · cases h
        · split at h
          · refine fillLoop_copiesRegistered Q hstep fuel _ _ ?_ h
            exact hstep _ _ _ _ _ _ _ (Or.inr (by simpa using hget)) hinv
          · cases h; exact hinv

theorem fillWithInserts_copiesRegistered (Q : List Image → Modifier → Prop)
    (hstep : ∀ (images : List Image) (h : Modifier) (fp fo key n : Nat) (replace : Bool),
      (replace = true ∨ (h.get key).isSome = false) → Q images h →
      Q ({ page := fp, offset := fo, key := key, size := n } :: images)
        (h.insert key (fp + (fo + n)) replace))
    (fuel : Nat) (s : GcState) (r : Option Nat × GcState) (hinv : Q s.images s.hashTable)
    (h : fillWithInserts ops lav fuel s = some r) : Q r.2.images r.2.hashTable := by
  unfold fillWithInserts at h
  split at h
  · cases h
  · rename_i s1 hs1
    have h1 : Q s1.images s1.hashTable := by
      refine fillLoop_copiesRegistered ops lav Q hstep fuel _ s1 ?_ hs1
      unfold constructFillPage
      split
      · exact hinv
      · exact hinv
    unfold releaseFillPage at h
    split at h
    · cases h
    · cases h; exact h1

theorem gcSecondPass_copiesRegistered (Q : List Image → Modifier → Prop)
    (hstep : ∀ (images : List Image) (h : Modifier) (fp fo key n : Nat) (replace : Bool),
      (replace = true ∨ (h.get key).isSome = false) → Q images h →
      Q ({ page := fp, offset := fo, key := key, size := n } :: images)
        (h.insert key (fp + (fo + n)) replace))
    (fuelInserts : Nat) :
    ∀ (fuel : Nat) (s : GcState) (offset : Nat) (r : GcResult), Q s.images s.hashTable →
      gcSecondPass ops lav fuelInserts fuel s offset = some r →
      Q r.state.images r.state.hashTable
  | 0, s, offset, r, _, h => by simp [gcSecondPass] at h
  | fuel + 1, s, offset, r, hinv, h => by
    rw [gcSecondPass] at h
    dsimp only at h
    split at h
    · split at h
      · cases h
      · split at h
        · cases h; exact hinv
        · refine gcSecondPass_copiesRegistered Q hstep fuelInserts fuel _ _ r ?_ h
          exact hstep _ _ _ _ _ _ _ (Or.inl rfl) hinv
    · split at h
      · split at h
        · cases h
        · rename_i r1 hr1
          cases h
          exact fillWithInserts_copiesRegistered ops lav Q hstep fuelInserts s r1 hinv hr1
      · cases h; exact hinv

theorem gc_copiesRegistered (Q : List Image → Modifier → Prop)
    (hstep : ∀ (images : List Image) (h : Modifier) (fp fo key n : Nat) (replace : Bool),
      (replace = true ∨ (h.get key).isSome = false) → Q images h →
      Q ({ page := fp, offset := fo, key := key, size := n } :: images)
        (h.insert key (fp + (fo + n)) replace))
    (fuel : Nat) (s : GcState) (r : GcResult) (hinv : Q s.images s.hashTable)
    (h : gc ops fuel lav s = some r) : Q r.state.images r.state.hashTable := by
  unfold gc at h
  split at h
  · cases h
  · split at h
    · cases h; exact hinv
    · refine gcSecondPass_copiesRegistered ops lav Q hstep fuel fuel _ _ r ?_ h
      unfold constructFillPage
      split
      · split
        · exact hinv
        · exact hinv
      · split
        · exact hinv
        · exact hinv

theorem bindingsRegistered_step (images : List Image) (h : Modifier) (fp fo key n : Nat)
    (replace : Bool) (hc : replace = true ∨ (h.get key).isSome = false)
    (hinv : ∀ img ∈ images, (img.key, bindingOf img) ∈ h ∧
      ∃ img2 ∈ images, img2.key = img.key ∧ h.get img.key = some (bindingOf img2)) :
    ∀ img ∈ ({ page := fp, offset := fo, key := key, size := n } : Image) :: images,
      (img.key, bindingOf img) ∈ h.insert key (fp + (fo + n)) replace ∧
      ∃ img2 ∈ ({ page := fp, offset := fo, key := key, size := n } : Image) :: images,
        img2.key = img.key ∧
        (h.insert key (fp + (fo + n)) replace).get img.key = some (bindingOf img2) := by
  have hins : h.insert key (fp + (fo + n)) replace = (key, fp + (fo + n)) :: h := by
    unfold Modifier.insert
    rcases hc with hc | hc
    · simp [hc]
    · have : (Modifier.get h key).isNone = true := by
        cases hg : Modifier.get h key with
        | none => rfl
        | some v => simp [hg] at hc
      simp [this]
  rw [hins]
  intro img himg
  simp only [List.mem_cons] at himg
  rcases himg with rfl | himg
  · refine ⟨List.mem_cons_self _ _, _, List.mem_cons_self _ _, rfl, ?_⟩
    simp [Modifier.get, List.find?, bindingOf]
  · obtain ⟨hmem, img2, himg2, hkey, hget⟩ := hinv img himg
    refine ⟨List.mem_cons_of_mem _ hmem, ?_⟩
    by_cases hk : key = img.key
    · refine ⟨_, List.mem_cons_self _ _, hk, ?_⟩
      simp [Modifier.get, List.find?, bindingOf, hk]
    · refine ⟨img2, List.mem_cons_of_mem _ himg2, hkey, ?_⟩
      have hb : (key == img.key) = false := by simpa using hk
      simpa [Modifier.get, List.find?, hb] using hget

/-- Claim C8: when every image written before the call has been registered through the
Modifier (none has, on a page that `gc` visits for the first time), the same holds when
`gc` returns and when `fillWithInserts` returns, whichever page they return: for every
record copied into a fill page the binding that `hashTable.insert` was called with is held
by the hash table, the key of the record resolves to the binding made for a copy of that
key and to nothing it was bound to before, and so the key is bound. No copied record is
unregistered at that moment. -/
theorem released_fill_page_registered (ops : RecordOps) (fuel lav : Nat) (s : GcState)
    (h0 : BindingsRegistered s) :
    (∀ r, gc ops fuel lav s = some r →
      BindingsRegistered r.state ∧ KeysRegistered r.state) ∧
    (∀ r, fillWithInserts ops lav fuel s = some r →
      BindingsRegistered r.2 ∧ KeysRegistered r.2) := by
  have hkeys : ∀ t : GcState, BindingsRegistered t → KeysRegistered t := by
    intro t ht img himg
    obtain ⟨_, img2, _, _, hget⟩ := ht img himg
    simp [hget]
  have h1 : ∀ r, gc ops fuel lav s = some r → BindingsRegistered r.state :=
    fun r hr => gc_copiesRegistered ops lav
      (fun images h => ∀ img ∈ images, (img.key, bindingOf img) ∈ h ∧
        ∃ img2 ∈ images, img2.key = img.key ∧ h.get img.key = some (bindingOf img2))
      bindingsRegistered_step fuel s r h0 hr
  have h2 : ∀ r, fillWithInserts ops lav fuel s = some r → BindingsRegistered r.2 :=
    fun r hr => fillWithInserts_copiesRegistered ops lav
      (fun images h => ∀ img ∈ images, (img.key, bindingOf img) ∈ h ∧
        ∃ img2 ∈ images, img2.key = img.key ∧ h.get img.key = some (bindingOf img2))
      bindingsRegistered_step fuel s r h0 hr
  exact ⟨fun r hr => ⟨h1 r hr, hkeys _ (h1 r hr)⟩, fun r hr => ⟨h2 r hr, hkeys _ (h2 r hr)⟩⟩

theorem released_fill_page_registered_witness :
    BindingsRegistered { Sample.fresh 32 [(9, [])] with hashTable := [(72, 72)] } ∧
      ∃ r, gc (Sample.ops fun _ => true) 5 9
          { Sample.fresh 32 [(9, [])] with hashTable := [(72, 72)] } = some r ∧
        r.ret = some 128 ∧
        r.state.images = [{ page := 128, offset := 40, key := 9, size := 16 },
                          { page := 128, offset := 8, key := 72, size := 32 }] ∧
        r.state.hashTable = [(9, 128 + 56), (72, 128 + 40), (72, 72)] ∧
        r.state.hashTable.get 72 = some (128 + 40) ∧
        BindingsRegistered r.state ∧ KeysRegistered r.state := by
  have h0 : BindingsRegistered { Sample.fresh 32 [(9, [])] with hashTable := [(72, 72)] } := by
    intro img himg
    simp [Sample.fresh] at himg
  have hr : (gc (Sample.ops fun _ => true) 5 9
      { Sample.fresh 32 [(9, [])] with hashTable := [(72, 72)] }).isSome = true := by
    decide
  obtain ⟨r, hr⟩ := Option.isSome_iff_exists.mp hr
  have hv : (gc (Sample.ops fun _ => true) 5 9
      { Sample.fresh 32 [(9, [])] with hashTable := [(72, 72)] }).map
      (fun r => (r.ret, r.state.images, r.state.hashTable, r.state.hashTable.get 72))
      = some (some 128,
          [{ page := 128, offset := 40, key := 9, size := 16 },
           { page := 128, offset := 8, key := 72, size := 32 }],
          [(9, 128 + 56), (72, 128 + 40), (72, 72)], some (128 + 40)) := rfl
  rw [hr] at hv
  simp only [Option.map_some', Option.some.injEq, Prod.mk.injEq] at hv
  have hreg := (released_fill_page_registered (Sample.ops fun _ => true) 5 9 _ h0).1 r hr
  exact ⟨h0, r, hr, hv.1, hv.2.1, hv.2.2.1, hv.2.2.2, hreg.1, hreg.2⟩

end RowStorePage

/-! ### Draining the insert map -/

theorem InsertMap.erase_length_le :
    ∀ (m : InsertMap) (key : Nat), (InsertMap.erase m key).length ≤ m.length
  | [], _ => by simp [InsertMap.erase]
  | e :: rest, key => by
    unfold InsertMap.erase
    split
    · simp
    · simpa using InsertMap.erase_length_le rest key

theorem InsertMap.erase_length_lt_of_mem :
    ∀ (m : InsertMap) (key : Nat), key ∈ m.map Prod.fst →
      (InsertMap.erase m key).length < m.length
  | [], _, h => by simp at h
  | e :: rest, key, h => by
    unfold InsertMap.erase
    split
    · simp
    · rename_i hne
      have hmem : key ∈ rest.map Prod.fst := by
        simp only [List.map_cons, List.mem_cons] at h
        rcases h with h | h
        · exact absurd h.symm hne
        · exact h
      simpa using InsertMap.erase_length_lt_of_mem rest key hmem

theorem InsertMap.erase_length_lt_of_sublist (m m0 : InsertMap) (fst : Nat × List Nat)
    (rest : InsertMap) (hm0 : m0 = fst :: rest)
    (h : (m.map Prod.fst).Sublist (m0.map Prod.fst)) :
    (InsertMap.erase m fst.1).length < m0.length := by
  have hle : m.length ≤ m0.length := by
    simpa using h.length_le
  by_cases hmem : fst.1 ∈ m.map Prod.fst
  · exact Nat.lt_of_lt_of_le (InsertMap.erase_length_lt_of_mem m fst.1 hmem) hle
  · have hne : m.length ≠ m0.length := by
      intro heq
      have := h.eq_of_length (by simpa using heq)
      rw [this, hm0] at hmem
      simp at hmem
    exact Nat.lt_of_le_of_lt (InsertMap.erase_length_le m fst.1) (by omega)

namespace RowStorePage

theorem constructFillPage_insertMap (ops : RecordOps) (s : GcState) :
    (constructFillPage ops s).insertMap = s.insertMap := by
  unfold constructFillPage
  split <;> rfl

theorem constructFillPage_isSome (ops : RecordOps) (s : GcState) :
    ∃ page, (constructFillPage ops s).page.mFillPage = some page := by
  unfold constructFillPage
  split
  · rename_i page h
    exact ⟨page, h⟩
  · exact ⟨_, rfl⟩

theorem fillLoop_skip (ops : RecordOps) (lav n : Nat) (t : GcState) (fst : Nat × List Nat)
    (rest : InsertMap) (hm : t.insertMap = fst :: rest)
    (hb : (t.hashTable.get fst.1).isSome = true) :
    fillLoop ops lav (n + 1) t = fillLoop ops lav n { t with insertMap := rest } := by
  rw [fillLoop]
  simp [hm, hb, InsertMap.erase]

theorem fillLoop_terminates (ops : RecordOps) (lav : Nat) (hops : NoKeysAdded ops) :
    ∀ (fuel : Nat) (s : GcState) (page : Nat), s.insertMap.length < fuel →
      s.page.mFillPage = some page →
      ∃ s1, fillLoop ops lav fuel s = some s1 ∧ s1.page.mFillPage = some page ∧
        (s1.insertMap = [] ∨ FillStopped ops lav s1)
  | 0, s, page, hlen, _ => by omega
  | fuel + 1, s, page, hlen, hfp => by
    rw [fillLoop]
    dsimp only
    split
    · rename_i hm
      exact ⟨s, rfl, hfp, Or.inl hm⟩
    · rename_i fst rest hm
      split
      · refine fillLoop_terminates ops lav hops fuel _ page ?_ hfp
        have hl : s.insertMap.length = rest.length + 1 := by rw [hm]; rfl
        simp only [hm, InsertMap.erase, if_true]
        omega
      · rename_i hget
        split
        · rename_i hnone
          rw [hfp] at hnone
          cases hnone
        · rename_i fillPage hsome
          have hpage : fillPage = page := by
            rw [hfp] at hsome
            exact (Option.some.inj hsome).symm
          subst hpage
          split
          · refine fillLoop_terminates ops lav hops fuel _ fillPage ?_ hfp
            have h := InsertMap.erase_length_lt_of_sublist _ s.insertMap fst rest hm
              (hops fst.1 lav s.insertMap (fillPage + s.page.mFillOffset)
                (ops.TELL_PAGE_SIZE - s.page.mFillOffset))
            dsimp only
            omega
          · rename_i hcr
            refine ⟨_, rfl, hfp, Or.inr ⟨s, fst, rest, fillPage, hm, ?_, hfp, ?_, rfl⟩⟩
            · simpa using hget
            · simpa using hcr

theorem sample_ops_noKeysAdded (dirty : Nat → Bool) : NoKeysAdded (Sample.ops dirty) := by
  intro key lav insertMap dst dstCap
  simp only [Sample.ops]
  split <;> exact List.Sublist.refl _

/-- Claim C12: when `copyAndCompact` adds no keys to the insert map, `fillWithInserts`
returns for every insert map (any fuel above the length of the map is enough). The loop
ends with an empty insert map or through `break`, after `copyAndCompact` reported
`couldRelocate = false` for the first key of the map; the page returned is the fill page,
not null, and the last store to its first 8 bytes is the final fill offset. `gc`, once its
second loop is over (`mSize <= offset`), sets `done = true` and returns that page when
the insert map is not empty, and null, with the state untouched, when it is empty. A first
key that is bound in the hash table is erased and nothing else changes: the loop goes on
from the same state without the entry. -/
theorem fillWithInserts_drains (ops : RecordOps) (lav fuel : Nat) (s : GcState)
    (hops : NoKeysAdded ops) (hfuel : s.insertMap.length < fuel) :
    (∃ page s1,
      (constructFillPage ops s).page.mFillPage = some page ∧
      fillLoop ops lav fuel (constructFillPage ops s) = some s1 ∧
      (s1.insertMap = [] ∨ FillStopped ops lav s1) ∧
      fillWithInserts ops lav fuel s = some (some page,
        { s1 with
          headers := (page, s1.page.mFillOffset) :: s1.headers
          page := { s1.page with mFillPage := none } }) ∧
      ∀ n offset, s.page.mSize ≤ offset → s.insertMap ≠ [] →
        gcSecondPass ops lav fuel (n + 1) s offset = some
          { ret := some page, done := true,
            state := { s1 with
              headers := (page, s1.page.mFillOffset) :: s1.headers
              page := { s1.page with mFillPage := none } } }) ∧
    (∀ n offset, s.page.mSize ≤ offset → s.insertMap = [] →
      gcSecondPass ops lav fuel (n + 1) s offset
        = some { ret := none, done := true, state := s }) ∧
    ∀ n (t : GcState) fst rest, t.insertMap = fst :: rest →
      (t.hashTable.get fst.1).isSome = true →
      fillLoop ops lav (n + 1) t = fillLoop ops lav n { t with insertMap := rest } := by
  obtain ⟨page, hpage⟩ := constructFillPage_isSome ops s
  obtain ⟨s1, hloop, hfp1, hpost⟩ := fillLoop_terminates ops lav hops fuel
    (constructFillPage ops s) page (by rw [constructFillPage_insertMap]; exact hfuel) hpage
  have hfw : fillWithInserts ops lav fuel s = some (some page,
      { s1 with
        headers := (page, s1.page.mFillOffset) :: s1.headers
        page := { s1.page with mFillPage := none } }) := by
    simp only [fillWithInserts, hloop, releaseFillPage, hfp1]
  refine ⟨⟨page, s1, hpage, hloop, hpost, hfw, ?_⟩, ?_, ?_⟩
  · intro n offset hoff hne
    have hlt : ¬ offset < s.page.mSize := by omega
    have hlen : (s.insertMap.length != 0) = true := by
      cases hm : s.insertMap with
      | nil => exact absurd hm hne
      | cons a l => simp
    rw [gcSecondPass]
    simp only [hlt, if_false, hlen, if_true, hfw]
  · intro n offset hoff hnil
    have hlt : ¬ offset < s.page.mSize := by omega
    rw [gcSecondPass]
    simp [hlt, hnil]
  · intro n t fst rest hm hb
    exact fillLoop_skip ops lav n t fst rest hm hb

theorem fillWithInserts_drains_witness :
    NoKeysAdded (Sample.ops fun _ => true) ∧
    ∃ page s1,
      fillLoop (Sample.ops fun _ => true) 9 2
        (constructFillPage (Sample.ops fun _ => true) (Sample.fresh 32 [(9, [])])) = some s1 ∧
      (s1.insertMap = [] ∨ FillStopped (Sample.ops fun _ => true) 9 s1) ∧
      fillWithInserts (Sample.ops fun _ => true) 9 2 (Sample.fresh 32 [(9, [])])
        = some (some page,
          { s1 with
            headers := (page, s1.page.mFillOffset) :: s1.headers
            page := { s1.page with mFillPage := none } }) := by
  obtain ⟨⟨page, s1, _, hloop, hpost, hfw, _⟩, _, _⟩ :=
    fillWithInserts_drains (Sample.ops fun _ => true) 9 2 (Sample.fresh 32 [(9, [])])
      (sample_ops_noKeysAdded _) (by decide)
  exact ⟨sample_ops_noKeysAdded _, page, s1, hloop, hpost, hfw⟩

/-! ### The fill offset stays inside the fill page -/

theorem fillLoop_fillBounded (ops : RecordOps) (lav : Nat) (hops : SizeBounded ops) :
    ∀ (fuel : Nat) (s s1 : GcState) (lo : Nat), FillBounded ops lo s →
      fillLoop ops lav fuel s = some s1 → FillBounded ops lo s1
  | 0, s, s1, lo, _, h => by simp [fillLoop] at h
  | fuel + 1, s, s1, lo, hb, h => by
    rw [fillLoop] at h
    dsimp only at h
    split at h
    · cases h; exact hb
    · rename_i fst rest hm
      split at h
      · refine fillLoop_fillBounded ops lav hops fuel _ s1 lo ?_ h
        exact hb
      · split at h
        · cases h
        · rename_i fillPage hfp
          have hsz := hops fst.1 lav s.insertMap (fillPage + s.page.mFillOffset)
            (ops.TELL_PAGE_SIZE - s.page.mFillOffset)
          obtain ⟨hlo, hhi, hhead, himg⟩ := hb
          split at h
          · rename_i hcr
            have hn := hsz.2.2.1 hcr
            refine fillLoop_fillBounded ops lav hops fuel _ s1 lo ?_ h
            refine ⟨?_, ?_, hhead, ?_⟩
            · dsimp only; omega
            · dsimp only; omega
            · intro img hmem
              dsimp only at hmem
              simp only [List.mem_cons] at hmem
              rcases hmem with rfl | hmem
              · dsimp only; omega
              · exact himg img hmem
          · rename_i hcr
            have hn := hsz.2.2.2 (by simpa using hcr)
            cases h
            refine ⟨?_, ?_, hhead, himg⟩
            · dsimp only; omega
            · dsimp only; omega

theorem constructFillPage_fillBounded (ops : RecordOps) (s : GcState)
    (h8 : 8 ≤ ops.TELL_PAGE_SIZE) (h0 : WithinPage ops s) :
    FillBounded ops (constructFillPage ops s).page.mFillOffset (constructFillPage ops s) := by
  refine ⟨Nat.le_refl _, ?_, ?_⟩
  · unfold constructFillPage
    split
    · rename_i page hfp
      exact h0.1 (by simp [hfp])
    · exact h8
  · unfold constructFillPage
    split
    · exact h0.2
    · exact h0.2

theorem fillWithInserts_fillBounded (ops : RecordOps) (lav fuel : Nat) (s : GcState)
    (r : Option Nat × GcState) (h8 : 8 ≤ ops.TELL_PAGE_SIZE) (hops : SizeBounded ops)
    (h0 : WithinPage ops s) (h : fillWithInserts ops lav fuel s = some r) :
    FillBounded ops (constructFillPage ops s).page.mFillOffset r.2 := by
  unfold fillWithInserts at h
  split at h
  · cases h
  · rename_i s1 hs1
    have hb := fillLoop_fillBounded ops lav hops fuel _ s1 _
      (constructFillPage_fillBounded ops s h8 h0) hs1
    unfold releaseFillPage at h
    split at h
    · cases h
    · cases h
      obtain ⟨hlo, hhi, hhead, himg⟩ := hb
      refine ⟨hlo, hhi, ?_, himg⟩
      intro hd hmem
      dsimp only at hmem
      simp only [List.mem_cons] at hmem
      rcases hmem with rfl | hmem
      · exact hhi
      · exact hhead hd hmem

theorem constructFillPage_of_isSome (ops : RecordOps) (s : GcState)
    (hfp : s.page.mFillPage.isSome = true) : constructFillPage ops s = s := by
  unfold constructFillPage
  split
  · rfl
  · rename_i hnone
    rw [hnone] at hfp
    cases hfp

theorem gcSecondPass_fillBounded (ops : RecordOps) (lav fuelInserts : Nat)
    (h8 : 8 ≤ ops.TELL_PAGE_SIZE) (hops : SizeBounded ops) :
    ∀ (fuel : Nat) (s : GcState) (offset : Nat) (r : GcResult) (lo : Nat),
      s.page.mFillPage.isSome = true → FillBounded ops lo s →
      gcSecondPass ops lav fuelInserts fuel s offset = some r → FillBounded ops lo r.state
  | 0, s, offset, r, lo, _, _, h => by simp [gcSecondPass] at h
  | fuel + 1, s, offset, r, lo, hfp, hb, h => by
    rw [gcSecondPass] at h
    dsimp only at h
    obtain ⟨hlo, hhi, hhead, himg⟩ := hb
    split at h
    · split at h
      · cases h
      · rename_i fillPage hsome
        have hsz := hops (s.page.mData + offset) lav s.insertMap
          (fillPage + s.page.mFillOffset) (ops.TELL_PAGE_SIZE - s.page.mFillOffset)
        split at h
        · cases h
          refine ⟨hlo, hhi, ?_, himg⟩
          intro hd hmem
          dsimp only at hmem
          simp only [List.mem_cons] at hmem
          rcases hmem with rfl | hmem
          · exact hhi
          · exact hhead hd hmem
        · rename_i hcr
          have hn := hsz.1 (by simpa using hcr)
          refine gcSecondPass_fillBounded ops lav fuelInserts h8 hops fuel _ _ r lo ?_ ?_ h
          · exact hfp
          · refine ⟨?_, ?_, hhead, ?_⟩
            · dsimp only; omega
            · dsimp only; omega
            · intro img hmem
              dsimp only at hmem
              simp only [List.mem_cons] at hmem
              rcases hmem with rfl | hmem
              · dsimp only; omega
              · exact himg img hmem
    · split at h
      · split at h
        · cases h
        · rename_i r1 hr1
          cases h
          have hb1 := fillWithInserts_fillBounded ops lav fuelInserts s r1 h8 hops
            ⟨fun _ => hhi, hhead, himg⟩ hr1
          rw [constructFillPage_of_isSome ops s hfp] at hb1
          exact ⟨Nat.le_trans hlo hb1.1, hb1.2⟩
      · cases h
        exact ⟨hlo, hhi, hhead, himg⟩

theorem constructFillPage_markCurrentForDeletion_page (ops : RecordOps) (s : GcState) :
    (constructFillPage ops (markCurrentForDeletion s)).page = (constructFillPage ops s).page := by
  unfold constructFillPage markCurrentForDeletion
  dsimp only
  split <;> rfl

theorem sample_ops_sizeBounded (dirty : Nat → Bool) : SizeBounded (Sample.ops dirty) := by
  intro rec lav insertMap dst dstCap
  simp only [Sample.ops]
  refine ⟨?_, ?_, ?_, ?_⟩ <;> split <;> simp <;> omega

/-- Claim C14: let a fresh fill page start at fill offset 8 <= TELL_PAGE_SIZE, let
`copyAndCompact` return at most `dstCap` bytes with `couldRelocate = true` and 0 bytes with
`couldRelocate = false`, and let the fill offset of an existing fill page, the header
values and the images written before the call lie inside a page. Then the same holds when
`gc` or `fillWithInserts` returns, and unless `gc` returns the source page untouched, the
final fill offset lies between the fill offset the call started with (after
`constructFillPage`) and TELL_PAGE_SIZE, every value stored in a fill page header is at
most TELL_PAGE_SIZE, and every image begins and ends at or before TELL_PAGE_SIZE, so that
the capacity at every call of `copyAndCompact` was computed without underflow. -/
theorem fill_offset_within_page (ops : RecordOps) (fuel lav : Nat) (s : GcState)
    (h8 : 8 ≤ ops.TELL_PAGE_SIZE) (hops : SizeBounded ops) (h0 : WithinPage ops s) :
    (∀ r, gc ops fuel lav s = some r →
      WithinPage ops r.state ∧
      (r.state = s ∨ FillBounded ops (constructFillPage ops s).page.mFillOffset r.state)) ∧
    (∀ r, fillWithInserts ops lav fuel s = some r →
      WithinPage ops r.2 ∧
      FillBounded ops (constructFillPage ops s).page.mFillOffset r.2) ∧
    ∀ t lo, FillBounded ops lo t →
      (∀ img ∈ t.images, img.offset ≤ ops.TELL_PAGE_SIZE ∧
        img.offset + img.size ≤ ops.TELL_PAGE_SIZE) ∧
      (∀ h ∈ t.headers, h.2 ≤ ops.TELL_PAGE_SIZE) ∧
      lo ≤ t.page.mFillOffset ∧ t.page.mFillOffset ≤ ops.TELL_PAGE_SIZE := by
  refine ⟨?_, ?_, ?_⟩
  · intro r h
    unfold gc at h
    split at h
    · cases h
    · split at h
      · cases h; exact ⟨h0, Or.inl rfl⟩
      · have hw1 : WithinPage ops
            (if (s.page.mStartOffset == 8) = true then markCurrentForDeletion s else s) := by
          split
          · exact h0
          · exact h0
        have hpage : (constructFillPage ops
            (if (s.page.mStartOffset == 8) = true then markCurrentForDeletion s else s)).page
            = (constructFillPage ops s).page := by
          split
          · exact constructFillPage_markCurrentForDeletion_page ops s
          · rfl
        obtain ⟨page, hsome⟩ := constructFillPage_isSome ops
          (if (s.page.mStartOffset == 8) = true then markCurrentForDeletion s else s)
        have hb := gcSecondPass_fillBounded ops lav fuel h8 hops fuel _ _ r _
          (by rw [hsome]; rfl) (constructFillPage_fillBounded ops _ h8 hw1) h
        rw [hpage] at hb
        exact ⟨⟨fun _ => hb.2.1, hb.2.2⟩, Or.inr hb⟩
  · intro r h
    have hb := fillWithInserts_fillBounded ops lav fuel s r h8 hops h0 h
    exact ⟨⟨fun _ => hb.2.1, hb.2.2⟩, hb⟩
  · intro t lo hb
    refine ⟨?_, hb.2.2.1, hb.1, hb.2.1⟩
    intro img hmem
    have := hb.2.2.2 img hmem
    omega

theorem fill_offset_within_page_witness :
    8 ≤ (Sample.ops fun _ => true).TELL_PAGE_SIZE ∧
    SizeBounded (Sample.ops fun _ => true) ∧
    WithinPage (Sample.ops fun _ => true) (Sample.fresh 32 [(9, [])]) ∧
    ∃ r, gc (Sample.ops fun _ => true) 5 9 (Sample.fresh 32 [(9, [])]) = some r ∧
      r.state.page.mFillOffset = 56 ∧ r.state.headers = [(128, 56)] ∧
      WithinPage (Sample.ops fun _ => true) r.state := by
  have h8 : 8 ≤ (Sample.ops fun _ => true).TELL_PAGE_SIZE := by decide
  have h0 : WithinPage (Sample.ops fun _ => true) (Sample.fresh 32 [(9, [])]) := by
    refine ⟨?_, ?_, ?_⟩
    · intro h; simp [Sample.fresh] at h
    · intro h hmem; simp [Sample.fresh] at hmem
    · intro img hmem; simp [Sample.fresh] at hmem
  have hr : (gc (Sample.ops fun _ => true) 5 9 (Sample.fresh 32 [(9, [])])).isSome = true := by
    decide
  obtain ⟨r, hr⟩ := Option.isSome_iff_exists.mp hr
  have hv : (gc (Sample.ops fun _ => true) 5 9 (Sample.fresh 32 [(9, [])])).map
      (fun r => (r.state.page.mFillOffset, r.state.headers)) = some (56, [(128, 56)]) := by
    decide
  rw [hr] at hv
  simp only [Option.map_some', Option.some.injEq, Prod.mk.injEq] at hv
  exact ⟨h8, sample_ops_sizeBounded _, h0, r, hr, hv.1, hv.2,
    ((fill_offset_within_page (Sample.ops fun _ => true) 5 9 (Sample.fresh 32 [(9, [])])
      h8 (sample_ops_sizeBounded _) h0).1 r hr).1⟩

end RowStorePage

/-! ## Theorems: client/Client.cpp -/

theorem fromLittleEndian_littleEndian :
    ∀ (n v : Nat), fromLittleEndian (littleEndian n v) = v % 256 ^ n
  | 0, v => by simp [littleEndian, fromLittleEndian, Nat.mod_one]
  | n + 1, v => by
    simp only [littleEndian, fromLittleEndian, fromLittleEndian_littleEndian n (v / 256)]
    rw [Nat.pow_succ, Nat.mul_comm (256 ^ n) 256, Nat.mod_mul]

namespace BufferWriter

theorem store_at (w : BufferWriter) (off : Nat) (bs : List Nat)
    (hpos : w.mPos = w.buffer + off) (hfit : w.buffer + (off + bs.length) ≤ w.mEnd) :
    w.store bs = some { w with
      bytes := w.bytes.take off ++ bs.map some ++ w.bytes.drop (off + bs.length)
      mPos := w.buffer + (off + bs.length) } := by
  have h1 : w.buffer ≤ w.mPos ∧ w.mPos + bs.length ≤ w.mEnd := by
    constructor <;> omega
  have h2 : w.mPos - w.buffer = off := by omega
  simp only [store, h1, and_self, if_true, h2]
  rw [hpos, Nat.add_assoc]

theorem align_at (w : BufferWriter) (alignment off pad : Nat)
    (hpos : w.mPos = w.buffer + off) (hpad : (w.buffer + off + pad) % alignment = 0)
    (hlt : pad < alignment) :
    w.align alignment = { w with mPos := w.buffer + (off + pad) } := by
  obtain ⟨buffer, mPos, mEnd, bytes⟩ := w
  simp only at hpos hpad
  subst hpos
  have hm := Nat.mod_lt (buffer + off) (show 0 < alignment by omega)
  have h1 := Nat.add_mod (buffer + off) pad alignment
  rw [hpad, Nat.mod_eq_of_lt hlt] at h1
  by_cases h : (buffer + off) % alignment = 0
  · have hp : pad = 0 := by
      rw [h, Nat.zero_add, Nat.mod_eq_of_lt hlt] at h1
      exact h1.symm
    simp [align, h, hp]
  · have hpadeq : alignment - (buffer + off) % alignment = pad := by
      rcases Nat.lt_or_ge ((buffer + off) % alignment + pad) alignment with hlt2 | hge
      · rw [Nat.mod_eq_of_lt hlt2] at h1
        omega
      · have h4 : ((buffer + off) % alignment + pad - alignment) % alignment = 0 := by
          rw [← Nat.mod_eq_sub_mod hge]; exact h1.symm
        rw [Nat.mod_eq_of_lt (by omega)] at h4
        omega
    simp [align, h, hpadeq, Nat.add_assoc]

end BufferWriter

namespace Client

theorem doScanConjunct_eq (query recordField : Nat) (hq : query % 8 = 0) :
    doScanConjunct query recordField = some
      { buffer := query, mPos := query + 16, mEnd := query + 24,
        bytes := [some 1, some 0, some 0, some 0, some 0, some 0, some 0, some 0,
          some (recordField % 256), some (recordField / 256 % 256), some 1, some 0,
          none, none, none, none, none, none, none, none, none, none, none, none] } := by
  have e1 : (BufferWriter.new query 24).write 8 1 = some
      { buffer := query, mPos := query + 8, mEnd := query + 24,
        bytes := [some 1, some 0, some 0, some 0, some 0, some 0, some 0, some 0,
          none, none, none, none, none, none, none, none,
          none, none, none, none, none, none, none, none] } := by
    rw [BufferWriter.write, BufferWriter.store_at _ 0 _ rfl
      (by simp [BufferWriter.new, littleEndian])]
    rfl
  have e2 : BufferWriter.write
      { buffer := query, mPos := query + 8, mEnd := query + 24,
        bytes := [some 1, some 0, some 0, some 0, some 0, some 0, some 0, some 0,
          none, none, none, none, none, none, none, none,
          none, none, none, none, none, none, none, none] } 2 recordField = some
      { buffer := query, mPos := query + 10, mEnd := query + 24,
        bytes := [some 1, some 0, some 0, some 0, some 0, some 0, some 0, some 0,
          some (recordField % 256), some (recordField / 256 % 256), none, none,
          none, none, none, none, none, none, none, none, none, none, none, none] } := by
    rw [BufferWriter.write, BufferWriter.store_at _ 8 _ rfl (by simp [littleEndian])]
    rfl
  have e3 : BufferWriter.write
      { buffer := query, mPos := query + 10, mEnd := query + 24,
        bytes := [some 1, some 0, some 0, some 0, some 0, some 0, some 0, some 0,
          some (recordField % 256), some (recordField / 256 % 256), none, none,
          none, none, none, none, none, none, none, none, none, none, none, none] } 2 1 = some
      { buffer := query, mPos := query + 12, mEnd := query + 24,
        bytes := [some 1, some 0, some 0, some 0, some 0, some 0, some 0, some 0,
          some (recordField % 256), some (recordField / 256 % 256), some 1, some 0,
          none, none, none, none, none, none, none, none, none, none, none, none] } := by
    rw [BufferWriter.write, BufferWriter.store_at _ 10 _ rfl (by simp [littleEndian])]
    rfl
  simp only [doScanConjunct, e1, e2, e3]
  rw [BufferWriter.align_at _ 8 12 4 rfl (by simp only; omega) (by decide)]

theorem doScanPredicate_eq (query recordField greaterEqual : Nat) (hq : query % 8 = 0) :
    doScanPredicate query recordField greaterEqual = some
      { buffer := query, mPos := query + 20, mEnd := query + 24,
        bytes := [some 1, some 0, some 0, some 0, some 0, some 0, some 0, some 0,
          some (recordField % 256), some (recordField / 256 % 256), some 1, some 0,
          none, none, none, none, some (greaterEqual % 256), some 0, none, none,
          none, none, none, none] } := by
  have e5 : BufferWriter.write
      { buffer := query, mPos := query + 16, mEnd := query + 24,
        bytes := [some 1, some 0, some 0, some 0, some 0, some 0, some 0, some 0,
          some (recordField % 256), some (recordField / 256 % 256), some 1, some 0,
          none, none, none, none, none, none, none, none, none, none, none, none] }
      1 greaterEqual = some
      { buffer := query, mPos := query + 17, mEnd := query + 24,
        bytes := [some 1, some 0, some 0, some 0, some 0, some 0, some 0, some 0,
          some (recordField % 256), some (recordField / 256 % 256), some 1, some 0,
          none, none, none, none, some (greaterEqual % 256), none, none, none,
          none, none, none, none] } := by
    rw [BufferWriter.write, BufferWriter.store_at _ 16 _ rfl (by simp [littleEndian])]
    rfl
  have e6 : BufferWriter.write
      { buffer := query, mPos := query + 17, mEnd := query + 24,
        bytes := [some 1, some 0, some 0, some 0, some 0, some 0, some 0, some 0,
          some (recordField % 256), some (recordField / 256 % 256), some 1, some 0,
          none, none, none, none, some (greaterEqual % 256), none, none, none,
          none, none, none, none] } 1 0 = some
      { buffer := query, mPos := query + 18, mEnd := query + 24,
        bytes := [some 1, some 0, some 0, some 0, some 0, some 0, some 0, some 0,
          some (recordField % 256), some (recordField / 256 % 256), some 1, some 0,
          none, none, none, none, some (greaterEqual % 256), some 0, none, none,
          none, none, none, none] } := by
    rw [BufferWriter.write, BufferWriter.store_at _ 17 _ rfl (by simp [littleEndian])]
    rfl
  simp only [doScanPredicate, doScanConjunct_eq query recordField hq, e5, e6]
  rw [BufferWriter.align_at _ 4 18 2 rfl (by simp only; omega) (by decide)]

theorem doScanQuery_eq (query recordField greaterEqual : Nat) (threshold : Int)
    (hq : query % 8 = 0) :
    doScanQuery query recordField greaterEqual threshold = some
      { buffer := query, mPos := query + 24, mEnd := query + 24,
        bytes := [some 1, some 0, some 0, some 0, some 0, some 0, some 0, some 0,
          some (recordField % 256), some (recordField / 256 % 256), some 1, some 0,
          none, none, none, none, some (greaterEqual % 256), some 0, none, none] ++
          (littleEndian 4 (threshold % 2 ^ 32).toNat).map some } := by
  simp only [doScanQuery, doScanPredicate_eq query recordField greaterEqual hq]
  rw [BufferWriter.writeInt32, BufferWriter.store_at _ 20 _ rfl (by simp [littleEndian])]
  rfl

/-- Claim C11: for every field id, every threshold value and every buffer address that is
a multiple of 8, `doScan` writes the query of one conjunct with one predicate and fills
the 24 bytes exactly: the u64 1 in bytes 0..7, the field id as u16 in bytes 8..9, the
u16 1 in bytes 10..11, the writer then stands at offset 16, byte 16 is the predicate type,
byte 17 is 0, the writer then stands at offset 20, bytes 20..23 hold the 32-bit threshold,
the writer ends at byte 24, the end of the buffer, and no store left the buffer. Bytes
12..15 and 18..19 are never written. -/
theorem doScan_query_layout (query recordField greaterEqual : Nat) (threshold : Int)
    (hq : query % 8 = 0) :
    (doScanConjunct query recordField).map BufferWriter.mPos = some (query + 16) ∧
    (doScanPredicate query recordField greaterEqual).map BufferWriter.mPos
      = some (query + 20) ∧
    ∃ w, doScanQuery query recordField greaterEqual threshold = some w ∧
      w.buffer = query ∧ w.mPos = query + 24 ∧ w.mPos = w.mEnd ∧ w.bytes.length = 24 ∧
      w.bytes.take 8 = (littleEndian 8 1).map some ∧
      (w.bytes.drop 8).take 2 = (littleEndian 2 recordField).map some ∧
      (w.bytes.drop 10).take 2 = (littleEndian 2 1).map some ∧
      (w.bytes.drop 12).take 4 = [none, none, none, none] ∧
      (w.bytes.drop 16).take 4 = [some (greaterEqual % 256), some 0, none, none] ∧
      w.bytes.drop 20 = (littleEndian 4 (threshold % 2 ^ 32).toNat).map some ∧
      fromLittleEndian (littleEndian 8 1) = 1 ∧
      fromLittleEndian (littleEndian 2 recordField) = recordField % 2 ^ 16 ∧
      fromLittleEndian (littleEndian 2 1) = 1 ∧
      (fromLittleEndian (littleEndian 4 (threshold % 2 ^ 32).toNat) : Int)
        = threshold % 2 ^ 32 := by
  refine ⟨by rw [doScanConjunct_eq query recordField hq]; rfl,
    by rw [doScanPredicate_eq query recordField greaterEqual hq]; rfl,
    _, doScanQuery_eq query recordField greaterEqual threshold hq,
    rfl, rfl, rfl, rfl, rfl, rfl, rfl, rfl, rfl, rfl, by decide, ?_, by decide, ?_⟩
  · rw [fromLittleEndian_littleEndian]; norm_num
  · rw [fromLittleEndian_littleEndian]
    have h0 : (0 : Int) ≤ threshold % 2 ^ 32 := Int.emod_nonneg _ (by norm_num)
    have hlt : threshold % 2 ^ 32 < 2 ^ 32 := Int.emod_lt_of_pos _ (by norm_num)
    have hnat : (threshold % 2 ^ 32).toNat < 256 ^ 4 := by
      have : ((threshold % 2 ^ 32).toNat : Int) < 2 ^ 32 := by
        rw [Int.toNat_of_nonneg h0]; exact hlt
      norm_num at this ⊢
      omega
    rw [Nat.mod_eq_of_lt hnat, Int.toNat_of_nonneg h0]

theorem doScan_query_layout_witness :
    (4096 : Nat) % 8 = 0 ∧
    ∃ w, doScanQuery 4096 3 6 (-2) = some w ∧ w.mPos = 4096 + 24 ∧ w.mPos = w.mEnd ∧
      w.bytes = [some 1, some 0, some 0, some 0, some 0, some 0, some 0, some 0,
        some 3, some 0, some 1, some 0, none, none, none, none,
        some 6, some 0, none, none, some 254, some 255, some 255, some 255] := by
  obtain ⟨_, _, w, hw, _, hpos, hend, _⟩ :=
    doScan_query_layout 4096 3 6 (-2) (by decide)
  refine ⟨by decide, w, hw, hpos, hend, ?_⟩
  have h : (doScanQuery 4096 3 6 (-2)).map BufferWriter.bytes
      = some [some 1, some 0, some 0, some 0, some 0, some 0, some 0, some 0,
        some 3, some 0, some 1, some 0, none, none, none, none,
        some 6, some 0, none, none, some 254, some 255, some 255, some 255] := by decide
  rw [hw] at h
  simpa using h

end Client

end TellStore
